import Mathlib

/-!
Shallow embedding of the root-finding core of the repository
(src/lab_3/metodos.py and src/lab_3/punto_fijo_impl.py):
bisection (metodo_intervalo_medio), false position
(metodo_interpolacion_lineal), Newton-Raphson (metodo_newton_raphson)
and fixed-point iteration with optional Aitken acceleration
(metodo_punto_fijo, aceleracion_aitken).

Python floats are modelled by rationals; the internal constant 1e-14 is
modelled as 1/10^14.  Each solver is a fuel-bounded loop over an explicit
state; raising ValueError is modelled by returning an error value.
-/

/-- Errors raised by the solvers: the invalid-bracket ValueError of
bisection/false position and the small-derivative ValueError of
Newton-Raphson. -/
inductive SolverError where
  | invalidBracket
  | zeroDerivative
deriving DecidableEq, Repr

/-- Solver return value: (root estimate, iterations used, converged flag).
`converged = false` models the "Máximo de iteraciones alcanzado" return. -/
abbrev SolverResult := ℚ × ℕ × Bool

/-- The fixed internal epsilon 1e-14 used by the Newton derivative check
and the Aitken denominator check. -/
def eps14 : ℚ := 1 / 10 ^ 14

/-- Generic bounded iterate-check-converge loop shared by all four solvers:
`for i in range(max_iter): if stop(state): return emitStop(state, i+1);
state := step(state)`, and `emitEnd(state)` when the fuel is exhausted.
`i` is the 0-based index of the current iteration. -/
def loopRun {σ α : Type} (step : σ → σ) (stop : σ → Bool)
    (emitStop : σ → ℕ → α) (emitEnd : σ → α) : ℕ → ℕ → σ → α
  | 0, _, s => emitEnd s
  | fuel + 1, i, s =>
    if stop s then emitStop s (i + 1)
    else loopRun step stop emitStop emitEnd fuel (i + 1) (step s)

/-- Midpoint `c = (a + b) / 2` of the bisection iteration. -/
def bisectMid (a b : ℚ) : ℚ := (a + b) / 2

/-- One bisection iteration on state (a, b, last c): compute the midpoint
and replace the endpoint whose function value shares the sign of f(c)
(`if func(a) * fc < 0: b = c else: a = c`). -/
def bisectStep (f : ℚ → ℚ) : ℚ × ℚ × ℚ → ℚ × ℚ × ℚ :=
  fun s =>
    match s with
    | (a, b, _) =>
      let c := bisectMid a b
      if f a * f c < 0 then (a, c, c) else (c, b, c)

/-- Bisection stop test `error < tolerancia or abs(fc) < tolerancia`
with `error = abs(b - a)`. -/
def bisectStop (f : ℚ → ℚ) (tol : ℚ) : ℚ × ℚ × ℚ → Bool :=
  fun s =>
    match s with
    | (a, b, _) => decide (|b - a| < tol ∨ |f (bisectMid a b)| < tol)

/-- Bisection, `metodo_intervalo_medio` of src/lab_3/metodos.py: raises
(returns) invalidBracket when `func(a) * func(b) > 0`, otherwise runs the
bounded loop; on convergence returns (c, i+1, true), on exhaustion the
last midpoint with (maxIter, false). -/
def metodo_intervalo_medio (f : ℚ → ℚ) (a b tol : ℚ) (maxIter : ℕ) :
    Except SolverError SolverResult :=
  if f a * f b > 0 then .error .invalidBracket
  else .ok (loopRun (bisectStep f) (bisectStop f tol)
    (fun s n => (bisectMid s.1 s.2.1, n, true))
    (fun s => (s.2.2, maxIter, false)) maxIter 0 (a, b, a))

/-- The false-position interior point `c = a - fa * (b - a) / (fb - fa)`. -/
def regulaC (f : ℚ → ℚ) (a b : ℚ) : ℚ := a - f a * (b - a) / (f b - f a)

/-- One false-position iteration on state (a, b, c_prev, isFirst):
compute `c`, replace the endpoint with the same sign as f(c), record `c`
as the new previous iterate and clear the first-iteration flag. -/
def regulaStep (f : ℚ → ℚ) : ℚ × ℚ × ℚ × Bool → ℚ × ℚ × ℚ × Bool :=
  fun s =>
    match s with
    | (a, b, _, _) =>
      let c := regulaC f a b
      if f a * f c < 0 then (a, c, c, false) else (c, b, c, false)

/-- The false-position error: `abs(b - a)` on the first iteration
(`i = 0`), `abs(c - c_anterior)` afterwards. -/
def regulaError (f : ℚ → ℚ) : ℚ × ℚ × ℚ × Bool → ℚ :=
  fun s =>
    match s with
    | (a, b, cprev, isFirst) =>
      if isFirst then |b - a| else |regulaC f a b - cprev|

/-- False-position stop test `error < tolerancia or abs(fc) < tolerancia`. -/
def regulaStop (f : ℚ → ℚ) (tol : ℚ) : ℚ × ℚ × ℚ × Bool → Bool :=
  fun s => decide (regulaError f s < tol ∨ |f (regulaC f s.1 s.2.1)| < tol)

/-- False position, `metodo_interpolacion_lineal` of src/lab_3/metodos.py:
invalid-bracket check, then the bounded loop with `c_anterior`
initialised to `a`; on convergence returns (c, i+1, true), on exhaustion
the last `c` with (maxIter, false). -/
def metodo_interpolacion_lineal (f : ℚ → ℚ) (a b tol : ℚ) (maxIter : ℕ) :
    Except SolverError SolverResult :=
  if f a * f b > 0 then .error .invalidBracket
  else .ok (loopRun (regulaStep f) (regulaStop f tol)
    (fun s n => (regulaC f s.1 s.2.1, n, true))
    (fun s => (s.2.2.1, maxIter, false)) maxIter 0 (a, b, a, true))

/-- The Newton update `x_nuevo = x - fx / fpx`. -/
def newtonStep (f fp : ℚ → ℚ) (x : ℚ) : ℚ := x - f x / fp x

/-- The Newton loop leaves iteration `x` exactly when the derivative is
tiny (`abs(fpx) < 1e-14`, a raise) or the convergence test
`error < tolerancia or abs(fx) < tolerancia` fires, with
`error = abs(x_nuevo - x)`. -/
def newtonStop (f fp : ℚ → ℚ) (tol : ℚ) (x : ℚ) : Bool :=
  decide (|fp x| < eps14 ∨ |newtonStep f fp x - x| < tol ∨ |f x| < tol)

/-- Newton-Raphson, `metodo_newton_raphson` of src/lab_3/metodos.py: per
iteration the derivative check (raising zeroDerivative) precedes the
convergence check; on convergence returns (x_nuevo, i+1, true), on
exhaustion the current x with (maxIter, false). -/
def metodo_newton_raphson (f fp : ℚ → ℚ) (x0 tol : ℚ) (maxIter : ℕ) :
    Except SolverError SolverResult :=
  loopRun (newtonStep f fp) (newtonStop f fp tol)
    (fun x n => if |fp x| < eps14 then .error .zeroDerivative
                else .ok (newtonStep f fp x, n, true))
    (fun x => .ok (x, maxIter, false)) maxIter 0 x0

/-- Aitken acceleration, `aceleracion_aitken` of
src/lab_3/punto_fijo_impl.py: when the denominator `x2 - 2*x1 + x0` has
magnitude below 1e-14 return `x2` unchanged, otherwise
`x0 - (x1 - x0)^2 / (x2 - 2*x1 + x0)`. -/
def aceleracion_aitken (x0 x1 x2 : ℚ) : ℚ :=
  let denominador := x2 - 2 * x1 + x0
  if |denominador| < eps14 then x2
  else x0 - (x1 - x0) ^ 2 / denominador

/-- One Aitken-enabled fixed-point iteration
(src/lab_3/punto_fijo_impl.py, lines 47-74): append the current x to the
buffer; if the buffer now holds three values apply Aitken to them, take
the accelerated value as the next iterate and clear the buffer; otherwise
take g(x).  Returns (next iterate, error, new buffer). -/
def pfAitkenStep (g : ℚ → ℚ) (x : ℚ) (buf : List ℚ) : ℚ × ℚ × List ℚ :=
  let gx := g x
  match buf ++ [x] with
  | [b0, b1, b2] =>
    let xa := aceleracion_aitken b0 b1 b2
    (xa, |xa - x|, [])
  | buf' => (gx, |gx - x|, buf')

/-- One fixed-point iteration with the `usar_aitken` flag: with the flag
off the buffer is untouched and the next iterate is g(x) with error
`abs(gx - x)`. -/
def pfIter (aitken : Bool) (g : ℚ → ℚ) (s : ℚ × List ℚ) : ℚ × ℚ × List ℚ :=
  if aitken then pfAitkenStep g s.1 s.2
  else (g s.1, |g s.1 - s.1|, s.2)

/-- The state transition of the fixed-point loop: next iterate and
updated Aitken buffer. -/
def pfNext (aitken : Bool) (g : ℚ → ℚ) (s : ℚ × List ℚ) : ℚ × List ℚ :=
  ((pfIter aitken g s).1, (pfIter aitken g s).2.2)

/-- Fixed-point stop test `error < tolerancia`. -/
def pfStop (aitken : Bool) (g : ℚ → ℚ) (tol : ℚ) (s : ℚ × List ℚ) : Bool :=
  decide ((pfIter aitken g s).2.1 < tol)

/-- Fixed-point iteration, `metodo_punto_fijo` of
src/lab_3/punto_fijo_impl.py: bounded loop from (x0, empty buffer); on
convergence returns (x_siguiente, i+1, true), on exhaustion the current
x with (maxIter, false). -/
def metodo_punto_fijo (g : ℚ → ℚ) (x0 tol : ℚ) (maxIter : ℕ)
    (usarAitken : Bool) : SolverResult :=
  loopRun (pfNext usarAitken g) (pfStop usarAitken g tol)
    (fun s n => ((pfIter usarAitken g s).1, n, true))
    (fun s => (s.1, maxIter, false)) maxIter 0 (x0, [])

/-- The bisection state trajectory: bracket and last midpoint reached
after k non-terminating iterations. -/
def bisectTraj (f : ℚ → ℚ) (a b : ℚ) (k : ℕ) : ℚ × ℚ × ℚ :=
  (bisectStep f)^[k] (a, b, a)

/-- The false-position state trajectory after k non-terminating
iterations. -/
def regulaTraj (f : ℚ → ℚ) (a b : ℚ) (k : ℕ) : ℚ × ℚ × ℚ × Bool :=
  (regulaStep f)^[k] (a, b, a, true)

/-- The Newton iterate sequence x, x - f x / f' x, .... -/
def newtonSeq (f fp : ℚ → ℚ) (x0 : ℚ) (k : ℕ) : ℚ :=
  (newtonStep f fp)^[k] x0

/-- The Aitken-enabled fixed-point trajectory (iterate, buffer) after k
non-terminating iterations. -/
def pfTraj (g : ℚ → ℚ) (x0 : ℚ) (k : ℕ) : ℚ × List ℚ :=
  (pfNext true g)^[k] (x0, [])

/-! Generic lemmas about the bounded loop. -/

theorem loopRun_zero {σ α : Type} (step : σ → σ) (stop : σ → Bool)
    (es : σ → ℕ → α) (ee : σ → α) (i : ℕ) (s : σ) :
    loopRun step stop es ee 0 i s = ee s := rfl

theorem loopRun_succ {σ α : Type} (step : σ → σ) (stop : σ → Bool)
    (es : σ → ℕ → α) (ee : σ → α) (fuel i : ℕ) (s : σ) :
    loopRun step stop es ee (fuel + 1) i s
      = if stop s then es s (i + 1)
        else loopRun step stop es ee fuel (i + 1) (step s) := rfl

theorem loopRun_firstStop {σ α : Type} (step : σ → σ) (stop : σ → Bool)
    (es : σ → ℕ → α) (ee : σ → α) :
    ∀ (k fuel i : ℕ) (s : σ), k < fuel →
      (∀ j < k, stop (step^[j] s) = false) → stop (step^[k] s) = true →
      loopRun step stop es ee fuel i s = es (step^[k] s) (i + k + 1) := by
  intro k
  induction k with
  | zero =>
    intro fuel i s hk hpre hs
    match fuel, hk with
    | fuel + 1, _ =>
      simp only [Function.iterate_zero_apply] at hs
      simp [loopRun, hs]
  | succ k ih =>
    intro fuel i s hk hpre hs
    match fuel, hk with
    | fuel + 1, hk =>
      have h0 : stop s = false := by
        have := hpre 0 (Nat.succ_pos k)
        simpa using this
      have hrec := ih fuel (i + 1) (step s) (Nat.lt_of_succ_lt_succ hk)
        (fun j hj => by
          rw [← Function.iterate_succ_apply]
          exact hpre (j + 1) (Nat.succ_lt_succ hj))
        (by rw [← Function.iterate_succ_apply]; exact hs)
      rw [← Function.iterate_succ_apply] at hrec
      have heq : i + 1 + k + 1 = i + (k + 1) + 1 := by omega
      rw [heq] at hrec
      rw [loopRun, h0]
      simp only [Bool.false_eq_true, if_false]
      exact hrec

theorem loopRun_exhaust {σ α : Type} (step : σ → σ) (stop : σ → Bool)
    (es : σ → ℕ → α) (ee : σ → α) :
    ∀ (fuel i : ℕ) (s : σ),
      (∀ j < fuel, stop (step^[j] s) = false) →
      loopRun step stop es ee fuel i s = ee (step^[fuel] s) := by
  intro fuel
  induction fuel with
  | zero => intro i s _; simp [loopRun]
  | succ fuel ih =>
    intro i s h
    have h0 : stop s = false := by
      have := h 0 (Nat.succ_pos fuel)
      simpa using this
    rw [loopRun, h0]
    simp only [Bool.false_eq_true, if_false]
    rw [ih (i + 1) (step s)
      (fun j hj => by
        rw [← Function.iterate_succ_apply]
        exact h (j + 1) (Nat.succ_lt_succ hj))]
    rw [← Function.iterate_succ_apply]

theorem loopRun_inv {σ α : Type} (step : σ → σ) (stop : σ → Bool)
    (es : σ → ℕ → α) (ee : σ → α) :
    ∀ (fuel i : ℕ) (s : σ),
      (∃ k, k < fuel ∧ (∀ j < k, stop (step^[j] s) = false) ∧
        stop (step^[k] s) = true ∧
        loopRun step stop es ee fuel i s = es (step^[k] s) (i + k + 1)) ∨
      ((∀ j < fuel, stop (step^[j] s) = false) ∧
        loopRun step stop es ee fuel i s = ee (step^[fuel] s)) := by
  intro fuel
  induction fuel with
  | zero =>
    intro i s
    right
    exact ⟨fun j hj => absurd hj (Nat.not_lt_zero j), by simp [loopRun]⟩
  | succ fuel ih =>
    intro i s
    by_cases h0 : stop s = true
    · left
      exact ⟨0, Nat.succ_pos fuel,
        fun j hj => absurd hj (Nat.not_lt_zero j),
        by simpa using h0, by simp [loopRun, h0]⟩
    · have h0' : stop s = false := by
        cases hs : stop s
        · rfl
        · exact absurd hs h0
      rcases ih (i + 1) (step s) with ⟨k, hk, hpre, hs, hres⟩ | ⟨hpre, hres⟩
      · left
        refine ⟨k + 1, Nat.succ_lt_succ hk, ?_, ?_, ?_⟩
        · intro j hj
          match j with
          | 0 => simpa using h0'
          | j + 1 =>
            rw [Function.iterate_succ_apply]
            exact hpre j (Nat.lt_of_succ_lt_succ hj)
        · rw [Function.iterate_succ_apply]; exact hs
        · rw [← Function.iterate_succ_apply] at hres
          have heq : i + 1 + k + 1 = i + (k + 1) + 1 := by omega
          rw [heq] at hres
          rw [loopRun, h0']
          simp only [Bool.false_eq_true, if_false]
          exact hres
      · right
        refine ⟨?_, ?_⟩
        · intro j hj
          match j with
          | 0 => simpa using h0'
          | j + 1 =>
            rw [Function.iterate_succ_apply]
            exact hpre j (Nat.lt_of_succ_lt_succ hj)
        · rw [loopRun, h0']
          simp only [Bool.false_eq_true, if_false]
          rw [hres, Function.iterate_succ_apply]

/-! Helper lemmas about the bracket update and the trajectories. -/

/-- Sign bookkeeping of the endpoint update: if (fa, fb) have opposite
signs, fc is nonzero and the code takes the `else` branch
(`not fa * fc < 0`), then (fc, fb) have opposite signs. -/
theorem bracket_sign_preserve {fa fb fc : ℚ} (h : fa * fb < 0)
    (hc : fc ≠ 0) (hn : ¬ fa * fc < 0) : fc * fb < 0 := by
  have hfa : fa ≠ 0 := by
    intro h0
    rw [h0, zero_mul] at h
    exact lt_irrefl 0 h
  have hge : 0 ≤ fa * fc := not_lt.mp hn
  rcases lt_or_gt_of_ne hfa with hfaneg | hfapos
  · have hfb : 0 < fb := by
      by_contra hb
      push_neg at hb
      have : 0 ≤ fa * fb := by nlinarith
      exact absurd h (not_lt.mpr this)
    have hfc : fc < 0 := by
      rcases lt_or_gt_of_ne hc with hneg | hpos
      · exact hneg
      · have : fa * fc < 0 := mul_neg_of_neg_of_pos hfaneg hpos
        exact absurd this hn
    exact mul_neg_of_neg_of_pos hfc hfb
  · have hfb : fb < 0 := by
      by_contra hb
      push_neg at hb
      have : 0 ≤ fa * fb := mul_nonneg (le_of_lt hfapos) hb
      exact absurd h (not_lt.mpr this)
    have hfc : 0 < fc := by
      rcases lt_or_gt_of_ne hc with hneg | hpos
      · have : fa * fc < 0 := mul_neg_of_pos_of_neg hfapos hneg
        exact absurd this hn
      · exact hpos
    exact mul_neg_of_pos_of_neg hfc hfb

/-- One bisection iteration that does not stop preserves the bracket
invariant f(a) * f(b) < 0. -/
theorem bisectStep_preserves_bracket (f : ℚ → ℚ) (tol : ℚ) (ht : 0 < tol)
    (s : ℚ × ℚ × ℚ) (hInv : f s.1 * f s.2.1 < 0)
    (hstop : bisectStop f tol s = false) :
    f (bisectStep f s).1 * f (bisectStep f s).2.1 < 0 := by
  rcases s with ⟨a, b, c0⟩
  simp only [bisectStop, decide_eq_false_iff_not, not_or, not_lt] at hstop
  have hfc : f (bisectMid a b) ≠ 0 := by
    intro h0
    have := hstop.2
    rw [h0, abs_zero] at this
    exact absurd ht (not_lt.mpr this)
  simp only [bisectStep]
  by_cases hbr : f a * f (bisectMid a b) < 0
  · rw [if_pos hbr]
    exact hbr
  · rw [if_neg hbr]
    exact bracket_sign_preserve hInv hfc hbr

/-- One false-position iteration that does not stop preserves the bracket
invariant f(a) * f(b) < 0. -/
theorem regulaStep_preserves_bracket (f : ℚ → ℚ) (tol : ℚ) (ht : 0 < tol)
    (s : ℚ × ℚ × ℚ × Bool) (hInv : f s.1 * f s.2.1 < 0)
    (hstop : regulaStop f tol s = false) :
    f (regulaStep f s).1 * f (regulaStep f s).2.1 < 0 := by
  rcases s with ⟨a, b, c0, fl⟩
  simp only [regulaStop, decide_eq_false_iff_not, not_or, not_lt] at hstop
  have hfc : f (regulaC f a b) ≠ 0 := by
    intro h0
    have := hstop.2
    rw [h0, abs_zero] at this
    exact absurd ht (not_lt.mpr this)
  simp only [regulaStep]
  by_cases hbr : f a * f (regulaC f a b) < 0
  · rw [if_pos hbr]
    exact hbr
  · rw [if_neg hbr]
    exact bracket_sign_preserve hInv hfc hbr

/-- One bisection iteration halves the signed interval width exactly,
whatever branch the sign test takes. -/
theorem bisectStep_width (f : ℚ → ℚ) (s : ℚ × ℚ × ℚ) :
    (bisectStep f s).2.1 - (bisectStep f s).1 = (s.2.1 - s.1) / 2 := by
  rcases s with ⟨a, b, c0⟩
  simp only [bisectStep, bisectMid]
  by_cases hbr : f a * f ((a + b) / 2) < 0
  · rw [if_pos hbr]
    ring
  · rw [if_neg hbr]
    ring

/-- The signed width of the bisection bracket after k iterations is the
initial width divided by 2^k. -/
theorem bisectTraj_width (f : ℚ → ℚ) (a b : ℚ) (k : ℕ) :
    (bisectTraj f a b k).2.1 - (bisectTraj f a b k).1 = (b - a) / 2 ^ k := by
  induction k with
  | zero => simp [bisectTraj]
  | succ k ih =>
    have hstep : bisectTraj f a b (k + 1) = bisectStep f (bisectTraj f a b k) := by
      simp [bisectTraj, Function.iterate_succ_apply']
    rw [hstep, bisectStep_width, ih]
    rw [pow_succ]
    ring

/-- The previous-iterate slot of the false-position state after k+1
iterations holds the interior point of the state after k iterations. -/
theorem regulaTraj_cprev (f : ℚ → ℚ) (a b : ℚ) (k : ℕ) :
    (regulaTraj f a b (k + 1)).2.2.1
      = regulaC f (regulaTraj f a b k).1 (regulaTraj f a b k).2.1 := by
  have hstep : regulaTraj f a b (k + 1) = regulaStep f (regulaTraj f a b k) := by
    simp [regulaTraj, Function.iterate_succ_apply']
  rw [hstep]
  rcases regulaTraj f a b k with ⟨a', b', c', fl⟩
  simp only [regulaStep]
  by_cases hbr : f a' * f (regulaC f a' b') < 0
  · rw [if_pos hbr]
  · rw [if_neg hbr]

/-- The first-iteration flag is true exactly at iteration 0. -/
theorem regulaTraj_flag (f : ℚ → ℚ) (a b : ℚ) (k : ℕ) :
    (regulaTraj f a b k).2.2.2 = decide (k = 0) := by
  cases k with
  | zero => simp [regulaTraj]
  | succ k =>
    have hstep : regulaTraj f a b (k + 1) = regulaStep f (regulaTraj f a b k) := by
      simp [regulaTraj, Function.iterate_succ_apply']
    rw [hstep]
    rcases regulaTraj f a b k with ⟨a', b', c', fl⟩
    simp only [regulaStep]
    by_cases hbr : f a' * f (regulaC f a' b') < 0
    · rw [if_pos hbr]; simp
    · rw [if_neg hbr]; simp

/-! Claim theorems. -/

/-- C1 counterexample: with f(x) = x on [0, 1] the entry product
f(0) * f(1) = 0 is not strictly negative, yet neither bisection nor
false position raises InvalidBracketError: both run and return a result
(the code only raises when the product is strictly positive). -/
theorem bisection_regula_zero_product_accepted :
    ¬ ((fun x : ℚ => x) 0 * (fun x : ℚ => x) 1 < 0) ∧
    metodo_intervalo_medio (fun x : ℚ => x) 0 1 1 1
      = .ok (1 / 2, 1, true) ∧
    metodo_interpolacion_lineal (fun x : ℚ => x) 0 1 1 1
      = .ok (0, 1, true) := by
  refine ⟨by norm_num, ?_, ?_⟩
  · unfold metodo_intervalo_medio
    rw [if_neg (by norm_num)]
    have h1 : (1 : ℕ) = 0 + 1 := rfl
    rw [h1, loopRun_succ]
    rw [if_pos (by simp only [bisectStop, bisectMid]; norm_num [abs_lt])]
    simp only [bisectMid]
    norm_num
  · unfold metodo_interpolacion_lineal
    rw [if_neg (by norm_num)]
    have h1 : (1 : ℕ) = 0 + 1 := rfl
    rw [h1, loopRun_succ]
    rw [if_pos (by simp only [regulaStop, regulaError, regulaC]; norm_num [abs_lt])]
    simp only [regulaC]
    norm_num

/-- C1 (amended): bisection and false position fail with
InvalidBracketError exactly when f(a) * f(b) > 0 strictly at entry; in
particular with f(a) * f(b) < 0 no such error is raised, and with the
product strictly positive no result is silently returned. -/
theorem invalid_bracket_error_iff_positive_product (f : ℚ → ℚ)
    (a b tol : ℚ) (n : ℕ) :
    (metodo_intervalo_medio f a b tol n = .error .invalidBracket
      ↔ f a * f b > 0) ∧
    (metodo_interpolacion_lineal f a b tol n = .error .invalidBracket
      ↔ f a * f b > 0) := by
  constructor
  · unfold metodo_intervalo_medio
    by_cases h : f a * f b > 0
    · simp [h]
    · simp [h]
  · unfold metodo_interpolacion_lineal
    by_cases h : f a * f b > 0
    · simp [h]
    · simp [h]

/-- C7: for every triple (x0, x1, x2), if the Aitken denominator
x2 - 2*x1 + x0 has magnitude below 1e-14 the acceleration returns x2
exactly; otherwise it returns x0 - (x1 - x0)^2 / (x2 - 2*x1 + x0).  The
function is total: no exception and no undefined value is produced. -/
theorem aitken_denominator_fallback (x0 x1 x2 : ℚ) :
    (|x2 - 2 * x1 + x0| < eps14 → aceleracion_aitken x0 x1 x2 = x2) ∧
    (¬ |x2 - 2 * x1 + x0| < eps14 →
      aceleracion_aitken x0 x1 x2
        = x0 - (x1 - x0) ^ 2 / (x2 - 2 * x1 + x0)) := by
  constructor
  · intro h
    simp [aceleracion_aitken, h]
  · intro h
    simp [aceleracion_aitken, h]

/-- C7 witness: a constant triple takes the fallback branch and returns
the third iterate; a triple with denominator -2 takes the formula
branch. -/
theorem aitken_denominator_fallback_witness :
    (|(0 : ℚ) - 2 * 0 + 0| < eps14 ∧ aceleracion_aitken 0 0 0 = 0) ∧
    (¬ |(0 : ℚ) - 2 * 1 + 0| < eps14 ∧
      aceleracion_aitken 0 1 0 = 0 - (1 - 0) ^ 2 / (0 - 2 * 1 + 0)) :=
  ⟨⟨by norm_num [eps14, abs_lt],
    (aitken_denominator_fallback 0 0 0).1 (by norm_num [eps14, abs_lt])⟩,
   ⟨by norm_num [eps14, abs_lt],
    (aitken_denominator_fallback 0 1 0).2 (by norm_num [eps14, abs_lt])⟩⟩

/-- C2: starting from a valid bracket (f(a) * f(b) < 0) with tol > 0, in
both bisection and false position the bracket invariant f(a) * f(b) < 0
holds at the state reached after any number of iterations none of which
triggered the stop test — i.e. both before and after the endpoint update
of every non-terminating iteration. -/
theorem bracket_invariant_preserved (f : ℚ → ℚ) (tol a b : ℚ)
    (ht : 0 < tol) (hab : f a * f b < 0) (k : ℕ) :
    ((∀ j < k, bisectStop f tol (bisectTraj f a b j) = false) →
      f (bisectTraj f a b k).1 * f (bisectTraj f a b k).2.1 < 0) ∧
    ((∀ j < k, regulaStop f tol (regulaTraj f a b j) = false) →
      f (regulaTraj f a b k).1 * f (regulaTraj f a b k).2.1 < 0) := by
  constructor
  · induction k with
    | zero => intro _; simpa [bisectTraj] using hab
    | succ k ih =>
      intro h
      have hk : bisectTraj f a b (k + 1)
          = bisectStep f (bisectTraj f a b k) := by
        simp [bisectTraj, Function.iterate_succ_apply']
      rw [hk]
      exact bisectStep_preserves_bracket f tol ht _
        (ih (fun j hj => h j (Nat.lt_succ_of_lt hj)))
        (h k (Nat.lt_succ_self k))
  · induction k with
    | zero => intro _; simpa [regulaTraj] using hab
    | succ k ih =>
      intro h
      have hk : regulaTraj f a b (k + 1)
          = regulaStep f (regulaTraj f a b k) := by
        simp [regulaTraj, Function.iterate_succ_apply']
      rw [hk]
      exact regulaStep_preserves_bracket f tol ht _
        (ih (fun j hj => h j (Nat.lt_succ_of_lt hj)))
        (h k (Nat.lt_succ_self k))

/-- C2 witness: f(x) = x^2 - 2 on [1, 2] with tol = 1/10; after one
non-terminating iteration both methods still bracket the root. -/
theorem bracket_invariant_preserved_witness :
    (0 : ℚ) < 1 / 10 ∧
    (fun x : ℚ => x ^ 2 - 2) 1 * (fun x : ℚ => x ^ 2 - 2) 2 < 0 ∧
    (fun x : ℚ => x ^ 2 - 2) (bisectTraj (fun x : ℚ => x ^ 2 - 2) 1 2 1).1 *
      (fun x : ℚ => x ^ 2 - 2)
        (bisectTraj (fun x : ℚ => x ^ 2 - 2) 1 2 1).2.1 < 0 ∧
    (fun x : ℚ => x ^ 2 - 2) (regulaTraj (fun x : ℚ => x ^ 2 - 2) 1 2 1).1 *
      (fun x : ℚ => x ^ 2 - 2)
        (regulaTraj (fun x : ℚ => x ^ 2 - 2) 1 2 1).2.1 < 0 :=
  ⟨by norm_num, by norm_num,
   (bracket_invariant_preserved (fun x : ℚ => x ^ 2 - 2) (1 / 10) 1 2
     (by norm_num) (by norm_num) 1).1
     (by
       intro j hj
       interval_cases j
       simp only [bisectTraj, Function.iterate_zero_apply, bisectStop, bisectMid]
       norm_num [abs_lt, le_abs]),
   (bracket_invariant_preserved (fun x : ℚ => x ^ 2 - 2) (1 / 10) 1 2
     (by norm_num) (by norm_num) 1).2
     (by
       intro j hj
       interval_cases j
       simp only [regulaTraj, Function.iterate_zero_apply, regulaStop,
         regulaError, regulaC]
       norm_num [abs_lt, le_abs])⟩

/-- C3: for every valid bracket, the signed bisection interval width
after iteration k+1 is exactly half the width after iteration k,
independently of f; consequently after ceil(log2 n) iterations, for any
n with (b - a) <= tol * n, the width is within tol — the
ceil(log2((b0-a0)/tol)) iteration bound. -/
theorem bisection_width_halves_and_log_bound (f : ℚ → ℚ) (tol a b : ℚ)
    (hab : f a * f b < 0) (ht : 0 < tol) :
    (∀ k : ℕ, (bisectTraj f a b (k + 1)).2.1 - (bisectTraj f a b (k + 1)).1
      = ((bisectTraj f a b k).2.1 - (bisectTraj f a b k).1) / 2) ∧
    (∀ n : ℕ, |b - a| ≤ tol * n →
      |(bisectTraj f a b (Nat.clog 2 n)).2.1
        - (bisectTraj f a b (Nat.clog 2 n)).1| ≤ tol) := by
  constructor
  · intro k
    have hk : bisectTraj f a b (k + 1)
        = bisectStep f (bisectTraj f a b k) := by
      simp [bisectTraj, Function.iterate_succ_apply']
    rw [hk]
    exact bisectStep_width f _
  · intro n hn
    rw [bisectTraj_width, abs_div]
    have hpow : (0 : ℚ) < 2 ^ Nat.clog 2 n := by positivity
    rw [abs_of_pos hpow, div_le_iff hpow]
    have hnK : (n : ℚ) ≤ 2 ^ Nat.clog 2 n := by
      have h := Nat.le_pow_clog (by norm_num : 1 < 2) n
      exact_mod_cast h
    calc |b - a| ≤ tol * n := hn
      _ ≤ tol * 2 ^ Nat.clog 2 n :=
        mul_le_mul_of_nonneg_left hnK (le_of_lt ht)

/-- C3 witness: f(x) = x^2 - 2 on [1, 2], tol = 1/10, n = 10; the width
halves at step 0 and after clog 2 10 iterations it is within tol. -/
theorem bisection_width_halves_and_log_bound_witness :
    ((fun x : ℚ => x ^ 2 - 2) 1 * (fun x : ℚ => x ^ 2 - 2) 2 < 0) ∧
    ((0 : ℚ) < 1 / 10) ∧
    (|(2 : ℚ) - 1| ≤ 1 / 10 * ((10 : ℕ) : ℚ)) ∧
    ((bisectTraj (fun x : ℚ => x ^ 2 - 2) 1 2 1).2.1
        - (bisectTraj (fun x : ℚ => x ^ 2 - 2) 1 2 1).1
      = ((bisectTraj (fun x : ℚ => x ^ 2 - 2) 1 2 0).2.1
        - (bisectTraj (fun x : ℚ => x ^ 2 - 2) 1 2 0).1) / 2) ∧
    (|(bisectTraj (fun x : ℚ => x ^ 2 - 2) 1 2 (Nat.clog 2 10)).2.1
        - (bisectTraj (fun x : ℚ => x ^ 2 - 2) 1 2 (Nat.clog 2 10)).1|
      ≤ 1 / 10) :=
  ⟨by norm_num, by norm_num, by norm_num [abs_lt],
   (bisection_width_halves_and_log_bound (fun x : ℚ => x ^ 2 - 2) (1 / 10)
     1 2 (by norm_num) (by norm_num)).1 0,
   (bisection_width_halves_and_log_bound (fun x : ℚ => x ^ 2 - 2) (1 / 10)
     1 2 (by norm_num) (by norm_num)).2 10 (by norm_num [abs_lt])⟩

theorem newtonSeq_eq (f fp : ℚ → ℚ) (x0 : ℚ) (k : ℕ) :
    (newtonStep f fp)^[k] x0 = newtonSeq f fp x0 k := rfl

/-- C5: when the first firing of the convergence test (step size below
tol, or residual below tol, with the derivative check not triggering) is
at iteration k < maxIter, Newton-Raphson returns converged with root
estimate x_next = x - f(x)/f'(x) at the k-th iterate and 1-based
iteration count k + 1. -/
theorem newton_update_and_convergence (f fp : ℚ → ℚ) (x0 tol : ℚ)
    (maxIter k : ℕ) (hk : k < maxIter)
    (hpre : ∀ j < k, newtonStop f fp tol (newtonSeq f fp x0 j) = false)
    (hd : ¬ |fp (newtonSeq f fp x0 k)| < eps14)
    (hconv : |newtonSeq f fp x0 (k + 1) - newtonSeq f fp x0 k| < tol
      ∨ |f (newtonSeq f fp x0 k)| < tol) :
    metodo_newton_raphson f fp x0 tol maxIter
      = .ok (newtonSeq f fp x0 k
          - f (newtonSeq f fp x0 k) / fp (newtonSeq f fp x0 k),
          k + 1, true) := by
  have hstop : newtonStop f fp tol (newtonSeq f fp x0 k) = true := by
    simp only [newtonStop, decide_eq_true_eq]
    rcases hconv with h | h
    · refine Or.inr (Or.inl ?_)
      have hs : newtonSeq f fp x0 (k + 1)
          = newtonStep f fp (newtonSeq f fp x0 k) := by
        simp [newtonSeq, Function.iterate_succ_apply']
      rwa [hs] at h
    · exact Or.inr (Or.inr h)
  unfold metodo_newton_raphson
  refine (loopRun_firstStop (newtonStep f fp) (newtonStop f fp tol)
    (fun x n => if |fp x| < eps14 then Except.error SolverError.zeroDerivative
                else Except.ok (newtonStep f fp x, n, true))
    (fun x => Except.ok (x, maxIter, false)) k maxIter 0 x0 hk hpre hstop).trans ?_
  simp only [newtonSeq_eq]
  rw [if_neg hd]
  simp [newtonStep, newtonSeq]

/-- C5 witness: f(x) = x, f'(x) = 1, x0 = 0, tol = 1: the residual
criterion fires at the first iteration and the solver returns the Newton
update with iteration count 1. -/
theorem newton_update_and_convergence_witness :
    (0 : ℕ) < 5 ∧
    ¬ |(fun _ : ℚ => (1 : ℚ)) (newtonSeq (fun x : ℚ => x)
        (fun _ : ℚ => 1) 0 0)| < eps14 ∧
    |(fun x : ℚ => x) (newtonSeq (fun x : ℚ => x)
        (fun _ : ℚ => 1) 0 0)| < 1 ∧
    metodo_newton_raphson (fun x : ℚ => x) (fun _ : ℚ => 1) 0 1 5
      = .ok (newtonSeq (fun x : ℚ => x) (fun _ : ℚ => 1) 0 0
          - (fun x : ℚ => x) (newtonSeq (fun x : ℚ => x) (fun _ : ℚ => 1) 0 0)
            / (fun _ : ℚ => (1 : ℚ)) (newtonSeq (fun x : ℚ => x)
                (fun _ : ℚ => 1) 0 0),
          0 + 1, true) :=
  ⟨by norm_num,
   by norm_num [newtonSeq, eps14, abs_lt],
   by norm_num [newtonSeq, abs_lt],
   newton_update_and_convergence (fun x : ℚ => x) (fun _ : ℚ => 1) 0 1 5 0
     (by norm_num) (fun j hj => absurd hj (Nat.not_lt_zero j))
     (by norm_num [newtonSeq, eps14, abs_lt])
     (Or.inr (by norm_num [newtonSeq, abs_lt]))⟩

/-- C10: the derivative-magnitude check precedes the convergence test:
if the run reaches iterate k (no earlier exit) and at that iterate both
the derivative bound |f'(x)| < 1e-14 and the residual criterion
|f(x)| < tol hold, Newton-Raphson raises ZeroDerivativeError rather than
returning a converged result. -/
theorem newton_derivative_check_precedes_convergence (f fp : ℚ → ℚ)
    (x0 tol : ℚ) (maxIter k : ℕ) (hk : k < maxIter)
    (hpre : ∀ j < k, newtonStop f fp tol (newtonSeq f fp x0 j) = false)
    (hd : |fp (newtonSeq f fp x0 k)| < eps14)
    (hres : |f (newtonSeq f fp x0 k)| < tol) :
    metodo_newton_raphson f fp x0 tol maxIter
      = .error .zeroDerivative := by
  have hstop : newtonStop f fp tol (newtonSeq f fp x0 k) = true := by
    simp only [newtonStop, decide_eq_true_eq]
    exact Or.inl hd
  unfold metodo_newton_raphson
  refine (loopRun_firstStop (newtonStep f fp) (newtonStop f fp tol)
    (fun x n => if |fp x| < eps14 then Except.error SolverError.zeroDerivative
                else Except.ok (newtonStep f fp x, n, true))
    (fun x => Except.ok (x, maxIter, false)) k maxIter 0 x0 hk hpre hstop).trans ?_
  simp only [newtonSeq_eq]
  rw [if_pos hd]

/-- C10 witness: f = 0, f' = 0, x0 = 0, tol = 1: at the first iterate the
residual is already below tol, yet the zero derivative aborts the run. -/
theorem newton_derivative_check_precedes_convergence_witness :
    (0 : ℕ) < 1 ∧
    |(fun _ : ℚ => (0 : ℚ)) (newtonSeq (fun _ : ℚ => 0)
        (fun _ : ℚ => 0) 0 0)| < eps14 ∧
    |(fun _ : ℚ => (0 : ℚ)) (newtonSeq (fun _ : ℚ => 0)
        (fun _ : ℚ => 0) 0 0)| < 1 ∧
    metodo_newton_raphson (fun _ : ℚ => 0) (fun _ : ℚ => 0) 0 1 1
      = .error .zeroDerivative :=
  ⟨by norm_num,
   by norm_num [newtonSeq, eps14],
   by norm_num [newtonSeq],
   newton_derivative_check_precedes_convergence (fun _ : ℚ => 0)
     (fun _ : ℚ => 0) 0 1 1 0 (by norm_num)
     (fun j hj => absurd hj (Nat.not_lt_zero j))
     (by norm_num [newtonSeq, eps14])
     (by norm_num [newtonSeq])⟩

/-- C4: Newton-Raphson returns ZeroDerivativeError exactly when some
iterate x_k actually reached by the run (k below the iteration budget,
no earlier stop) has |f'(x_k)| < 1e-14, the fixed internal epsilon
independent of the caller's tol; the run is aborted there with no
result. -/
theorem newton_zero_derivative_error_iff (f fp : ℚ → ℚ) (x0 tol : ℚ)
    (maxIter : ℕ) :
    metodo_newton_raphson f fp x0 tol maxIter = .error .zeroDerivative ↔
    ∃ k, k < maxIter ∧ |fp (newtonSeq f fp x0 k)| < eps14 ∧
      ∀ j < k, newtonStop f fp tol (newtonSeq f fp x0 j) = false := by
  constructor
  · intro hres
    unfold metodo_newton_raphson at hres
    rcases loopRun_inv (newtonStep f fp) (newtonStop f fp tol)
      (fun x n => if |fp x| < eps14 then Except.error SolverError.zeroDerivative
                  else Except.ok (newtonStep f fp x, n, true))
      (fun x => Except.ok (x, maxIter, false)) maxIter 0 x0 with
      ⟨k, hk, hpre, _, heq⟩ | ⟨_, heq⟩
    · rw [heq] at hres
      by_cases hd : |fp ((newtonStep f fp)^[k] x0)| < eps14
      · exact ⟨k, hk, hd, hpre⟩
      · rw [if_neg hd] at hres
        simp at hres
    · rw [heq] at hres
      simp at hres
  · rintro ⟨k, hk, hd, hpre⟩
    have hstop : newtonStop f fp tol (newtonSeq f fp x0 k) = true := by
      simp only [newtonStop, decide_eq_true_eq]
      exact Or.inl hd
    unfold metodo_newton_raphson
    refine (loopRun_firstStop (newtonStep f fp) (newtonStop f fp tol)
      (fun x n => if |fp x| < eps14 then Except.error SolverError.zeroDerivative
                  else Except.ok (newtonStep f fp x, n, true))
      (fun x => Except.ok (x, maxIter, false)) k maxIter 0 x0 hk hpre hstop).trans ?_
    simp only [newtonSeq_eq]
    rw [if_pos hd]

theorem regulaTraj_eq (f : ℚ → ℚ) (a b : ℚ) (k : ℕ) :
    (regulaStep f)^[k] (a, b, a, true) = regulaTraj f a b k := rfl

/-- C8: in false position the step-based stopping quantity is seeded
with |b - a| on the first iteration and is |c - c_prev| with the
previous iteration's interior point afterwards; when that error or the
residual |f(c)| first drops below tol at iteration k < maxIter, the
solver returns converged with root c and 1-based count k + 1. -/
theorem regula_error_seeding_and_convergence (f : ℚ → ℚ) (a b tol : ℚ)
    (maxIter k : ℕ) (hk : k < maxIter) (hab : ¬ f a * f b > 0)
    (hpre : ∀ j < k, regulaStop f tol (regulaTraj f a b j) = false)
    (hstop : regulaError f (regulaTraj f a b k) < tol
      ∨ |f (regulaC f (regulaTraj f a b k).1 (regulaTraj f a b k).2.1)| < tol) :
    regulaError f (regulaTraj f a b k)
      = (if k = 0 then |b - a|
         else |regulaC f (regulaTraj f a b k).1 (regulaTraj f a b k).2.1
           - regulaC f (regulaTraj f a b (k - 1)).1
               (regulaTraj f a b (k - 1)).2.1|) ∧
    metodo_interpolacion_lineal f a b tol maxIter
      = .ok (regulaC f (regulaTraj f a b k).1 (regulaTraj f a b k).2.1,
          k + 1, true) := by
  constructor
  · cases k with
    | zero => simp [regulaTraj, regulaError]
    | succ j =>
      have hflag := regulaTraj_flag f a b (j + 1)
      have hcprev := regulaTraj_cprev f a b j
      rcases hT : regulaTraj f a b (j + 1) with ⟨a', b', c', fl⟩
      rw [hT] at hflag hcprev
      simp only [Nat.succ_ne_zero, decide_eq_true_eq, decide_eq_false_iff_not] at hflag
      have hfl : fl = false := by
        simpa using hflag
      subst hfl
      simp only [regulaError, if_neg Bool.false_ne_true]
      rw [if_neg (Nat.succ_ne_zero j)]
      simp only [Nat.add_sub_cancel]
      simp only [Prod.snd, Prod.fst] at hcprev
      rw [hcprev]
  · have hstopb : regulaStop f tol (regulaTraj f a b k) = true := by
      simp only [regulaStop, decide_eq_true_eq]
      exact hstop
    unfold metodo_interpolacion_lineal
    rw [if_neg hab]
    rw [loopRun_firstStop (regulaStep f) (regulaStop f tol)
      (fun s n => (regulaC f s.1 s.2.1, n, true))
      (fun s => (s.2.2.1, maxIter, false)) k maxIter 0 (a, b, a, true)
      hk hpre hstopb]
    simp only [regulaTraj_eq, Nat.zero_add]

/-- C8 witness: f(x) = x^2 - 2 on [1, 2] with tol = 1: the residual
criterion fires at iteration 0, the error is the seed |b - a| and the
solver returns (c_0, 1, converged). -/
theorem regula_error_seeding_and_convergence_witness :
    (0 : ℕ) < 3 ∧
    ¬ (fun x : ℚ => x ^ 2 - 2) 1 * (fun x : ℚ => x ^ 2 - 2) 2 > 0 ∧
    |(fun x : ℚ => x ^ 2 - 2)
      (regulaC (fun x : ℚ => x ^ 2 - 2)
        (regulaTraj (fun x : ℚ => x ^ 2 - 2) 1 2 0).1
        (regulaTraj (fun x : ℚ => x ^ 2 - 2) 1 2 0).2.1)| < 1 ∧
    regulaError (fun x : ℚ => x ^ 2 - 2)
        (regulaTraj (fun x : ℚ => x ^ 2 - 2) 1 2 0)
      = (if (0 : ℕ) = 0 then |(2 : ℚ) - 1|
         else |regulaC (fun x : ℚ => x ^ 2 - 2)
             (regulaTraj (fun x : ℚ => x ^ 2 - 2) 1 2 0).1
             (regulaTraj (fun x : ℚ => x ^ 2 - 2) 1 2 0).2.1
           - regulaC (fun x : ℚ => x ^ 2 - 2)
               (regulaTraj (fun x : ℚ => x ^ 2 - 2) 1 2 (0 - 1)).1
               (regulaTraj (fun x : ℚ => x ^ 2 - 2) 1 2 (0 - 1)).2.1|) ∧
    metodo_interpolacion_lineal (fun x : ℚ => x ^ 2 - 2) 1 2 1 3
      = .ok (regulaC (fun x : ℚ => x ^ 2 - 2)
          (regulaTraj (fun x : ℚ => x ^ 2 - 2) 1 2 0).1
          (regulaTraj (fun x : ℚ => x ^ 2 - 2) 1 2 0).2.1, 0 + 1, true) := by
  have hres : |(fun x : ℚ => x ^ 2 - 2)
      (regulaC (fun x : ℚ => x ^ 2 - 2)
        (regulaTraj (fun x : ℚ => x ^ 2 - 2) 1 2 0).1
        (regulaTraj (fun x : ℚ => x ^ 2 - 2) 1 2 0).2.1)| < 1 := by
    simp only [regulaTraj, Function.iterate_zero_apply, regulaC]
    norm_num [abs_lt]
  have h := regula_error_seeding_and_convergence (fun x : ℚ => x ^ 2 - 2)
    1 2 1 3 0 (by norm_num) (by norm_num)
    (fun j hj => absurd hj (Nat.not_lt_zero j)) (Or.inr hres)
  exact ⟨by norm_num, by norm_num, hres, h.1, h.2⟩

theorem bisectTraj_eq (f : ℚ → ℚ) (a b : ℚ) (k : ℕ) :
    (bisectStep f)^[k] (a, b, a) = bisectTraj f a b k := rfl

theorem pfTraj_eq (g : ℚ → ℚ) (x0 : ℚ) (k : ℕ) :
    (pfNext true g)^[k] (x0, []) = pfTraj g x0 k := rfl

/-- C9: when the preconditions hold at entry and no iteration meets the
stop test within the budget, every solver returns normally — no
exception — with converged = false, iterations_used = maxIter and a
well-defined root estimate. -/
theorem max_iter_exhaustion_returns_normally (f fp g : ℚ → ℚ)
    (a b x0 y0 tol : ℚ) (n : ℕ) (hab : f a * f b < 0)
    (hbis : ∀ j < n, bisectStop f tol (bisectTraj f a b j) = false)
    (hreg : ∀ j < n, regulaStop f tol (regulaTraj f a b j) = false)
    (hnew : ∀ j < n, newtonStop f fp tol (newtonSeq f fp x0 j) = false)
    (hpf : ∀ j < n, pfStop true g tol (pfTraj g y0 j) = false) :
    metodo_intervalo_medio f a b tol n
      = .ok ((bisectTraj f a b n).2.2, n, false) ∧
    metodo_interpolacion_lineal f a b tol n
      = .ok ((regulaTraj f a b n).2.2.1, n, false) ∧
    metodo_newton_raphson f fp x0 tol n
      = .ok (newtonSeq f fp x0 n, n, false) ∧
    metodo_punto_fijo g y0 tol n true = ((pfTraj g y0 n).1, n, false) := by
  refine ⟨?_, ?_, ?_, ?_⟩
  · unfold metodo_intervalo_medio
    rw [if_neg (not_lt.mpr (le_of_lt hab))]
    rw [loopRun_exhaust (bisectStep f) (bisectStop f tol)
      (fun s n => (bisectMid s.1 s.2.1, n, true))
      (fun s => (s.2.2, n, false)) n 0 (a, b, a) hbis]
    simp only [bisectTraj_eq]
  · unfold metodo_interpolacion_lineal
    rw [if_neg (not_lt.mpr (le_of_lt hab))]
    rw [loopRun_exhaust (regulaStep f) (regulaStop f tol)
      (fun s n => (regulaC f s.1 s.2.1, n, true))
      (fun s => (s.2.2.1, n, false)) n 0 (a, b, a, true) hreg]
    simp only [regulaTraj_eq]
  · unfold metodo_newton_raphson
    rw [loopRun_exhaust (newtonStep f fp) (newtonStop f fp tol)
      (fun x n => if |fp x| < eps14 then Except.error SolverError.zeroDerivative
                  else Except.ok (newtonStep f fp x, n, true))
      (fun x => Except.ok (x, n, false)) n 0 x0 hnew]
    simp only [newtonSeq_eq]
  · unfold metodo_punto_fijo
    rw [loopRun_exhaust (pfNext true g) (pfStop true g tol)
      (fun s n => ((pfIter true g s).1, n, true))
      (fun s => (s.1, n, false)) n 0 (y0, []) hpf]
    simp only [pfTraj_eq]

/-- C9 witness: max_iter = 1 with a tolerance of 1/10 unreachable in one
step — f(x) = x^2 - 2 on [1, 2] for the bracketing methods,
f' (x) = 2x with x0 = 1 for Newton, g(x) = x/2 with y0 = 1 for fixed
point; all four return (·, 1, false) with no exception. -/
theorem max_iter_exhaustion_returns_normally_witness :
    (fun x : ℚ => x ^ 2 - 2) 1 * (fun x : ℚ => x ^ 2 - 2) 2 < 0 ∧
    metodo_intervalo_medio (fun x : ℚ => x ^ 2 - 2) 1 2 (1 / 10) 1
      = .ok ((bisectTraj (fun x : ℚ => x ^ 2 - 2) 1 2 1).2.2, 1, false) ∧
    metodo_interpolacion_lineal (fun x : ℚ => x ^ 2 - 2) 1 2 (1 / 10) 1
      = .ok ((regulaTraj (fun x : ℚ => x ^ 2 - 2) 1 2 1).2.2.1, 1, false) ∧
    metodo_newton_raphson (fun x : ℚ => x ^ 2 - 2) (fun x : ℚ => 2 * x)
        1 (1 / 10) 1
      = .ok (newtonSeq (fun x : ℚ => x ^ 2 - 2) (fun x : ℚ => 2 * x) 1 1,
          1, false) ∧
    metodo_punto_fijo (fun x : ℚ => x / 2) 1 (1 / 10) 1 true
      = ((pfTraj (fun x : ℚ => x / 2) 1 1).1, 1, false) := by
  have hab : (fun x : ℚ => x ^ 2 - 2) 1 * (fun x : ℚ => x ^ 2 - 2) 2 < 0 := by
    norm_num
  have hbis : ∀ j < 1, bisectStop (fun x : ℚ => x ^ 2 - 2) (1 / 10)
      (bisectTraj (fun x : ℚ => x ^ 2 - 2) 1 2 j) = false := by
    intro j hj
    interval_cases j
    simp only [bisectTraj, Function.iterate_zero_apply, bisectStop, bisectMid]
    norm_num [abs_lt, le_abs]
  have hreg : ∀ j < 1, regulaStop (fun x : ℚ => x ^ 2 - 2) (1 / 10)
      (regulaTraj (fun x : ℚ => x ^ 2 - 2) 1 2 j) = false := by
    intro j hj
    interval_cases j
    simp only [regulaTraj, Function.iterate_zero_apply, regulaStop,
      regulaError, regulaC]
    norm_num [abs_lt, le_abs]
  have hnew : ∀ j < 1, newtonStop (fun x : ℚ => x ^ 2 - 2)
      (fun x : ℚ => 2 * x) (1 / 10)
      (newtonSeq (fun x : ℚ => x ^ 2 - 2) (fun x : ℚ => 2 * x) 1 j)
        = false := by
    intro j hj
    interval_cases j
    simp only [newtonSeq, Function.iterate_zero_apply, newtonStop,
      newtonStep, eps14]
    norm_num [abs_lt, le_abs]
  have hpf : ∀ j < 1, pfStop true (fun x : ℚ => x / 2) (1 / 10)
      (pfTraj (fun x : ℚ => x / 2) 1 j) = false := by
    intro j hj
    interval_cases j
    simp only [pfTraj, Function.iterate_zero_apply, pfStop, pfIter,
      pfAitkenStep, List.nil_append]
    norm_num [abs_lt, le_abs]
  have h := max_iter_exhaustion_returns_normally (fun x : ℚ => x ^ 2 - 2)
    (fun x : ℚ => 2 * x) (fun x : ℚ => x / 2) 1 2 1 1 (1 / 10) 1
    hab hbis hreg hnew hpf
  exact ⟨hab, h.1, h.2.1, h.2.2.1, h.2.2.2⟩

/-- One full three-iteration cycle of the Aitken-enabled fixed-point
loop started from an empty buffer: the first two iterations are raw
g-steps that only grow the buffer, the third applies Aitken to the three
accumulated raw iterates and clears the buffer. -/
theorem pfNext_cycle (g : ℚ → ℚ) (s : ℚ × List ℚ) (h : s.2 = []) :
    (pfNext true g s).1 = g s.1 ∧
    (pfNext true g s).2 = [s.1] ∧
    (pfNext true g (pfNext true g s)).1 = g (pfNext true g s).1 ∧
    (pfNext true g (pfNext true g s)).2 = [s.1, (pfNext true g s).1] ∧
    ((pfNext true g)^[3] s).1
      = aceleracion_aitken s.1 (pfNext true g s).1
          (pfNext true g (pfNext true g s)).1 ∧
    ((pfNext true g)^[3] s).2 = [] := by
  rcases s with ⟨x, buf⟩
  simp only [Prod.snd] at h
  subst h
  have h3 : ((pfNext true g)^[3] (x, ([] : List ℚ)))
      = pfNext true g (pfNext true g (pfNext true g (x, []))) := rfl
  refine ⟨?_, ?_, ?_, ?_, ?_, ?_⟩ <;>
    simp [h3, pfNext, pfIter, pfAitkenStep]

/-- C6: in the Aitken variant of the fixed-point iterator the
acceleration is applied exactly once per three raw iterates: the buffer
is empty at every iteration 3m, the two following iterations are plain
g-steps that accumulate the raw iterates, and iteration 3m + 2 replaces
the next iterate by the Aitken-accelerated value of the three
accumulated iterates and restarts the buffer empty. -/
theorem aitken_applied_once_per_three (g : ℚ → ℚ) (x0 : ℚ) (m : ℕ) :
    (pfTraj g x0 (3 * m)).2 = [] ∧
    (pfTraj g x0 (3 * m + 1)).1 = g (pfTraj g x0 (3 * m)).1 ∧
    (pfTraj g x0 (3 * m + 1)).2 = [(pfTraj g x0 (3 * m)).1] ∧
    (pfTraj g x0 (3 * m + 2)).1 = g (pfTraj g x0 (3 * m + 1)).1 ∧
    (pfTraj g x0 (3 * m + 2)).2
      = [(pfTraj g x0 (3 * m)).1, (pfTraj g x0 (3 * m + 1)).1] ∧
    (pfTraj g x0 (3 * m + 3)).1
      = aceleracion_aitken (pfTraj g x0 (3 * m)).1
          (pfTraj g x0 (3 * m + 1)).1 (pfTraj g x0 (3 * m + 2)).1 ∧
    (pfTraj g x0 (3 * m + 3)).2 = [] := by
  have hsucc : ∀ k : ℕ, pfTraj g x0 (k + 1) = pfNext true g (pfTraj g x0 k) := by
    intro k
    simp [pfTraj, Function.iterate_succ_apply']
  have hthree : ∀ k : ℕ, pfTraj g x0 (k + 3) = (pfNext true g)^[3] (pfTraj g x0 k) := by
    intro k
    have : k + 3 = 3 + k := by omega
    rw [this]
    simp [pfTraj, Function.iterate_add_apply]
  have hempty : ∀ m' : ℕ, (pfTraj g x0 (3 * m')).2 = [] := by
    intro m'
    induction m' with
    | zero => simp [pfTraj]
    | succ m' ih =>
      have h1 : 3 * (m' + 1) = 3 * m' + 3 := by omega
      rw [h1, hthree]
      exact (pfNext_cycle g (pfTraj g x0 (3 * m')) ih).2.2.2.2.2
  have hcyc := pfNext_cycle g (pfTraj g x0 (3 * m)) (hempty m)
  have e1 : pfTraj g x0 (3 * m + 1) = pfNext true g (pfTraj g x0 (3 * m)) :=
    hsucc (3 * m)
  have e2 : pfTraj g x0 (3 * m + 2)
      = pfNext true g (pfNext true g (pfTraj g x0 (3 * m))) := by
    rw [hsucc (3 * m + 1), e1]
  have e3 : pfTraj g x0 (3 * m + 3)
      = (pfNext true g)^[3] (pfTraj g x0 (3 * m)) := hthree (3 * m)
  refine ⟨hempty m, ?_, ?_, ?_, ?_, ?_, ?_⟩
  · rw [e1]; exact hcyc.1
  · rw [e1]; exact hcyc.2.1
  · rw [e2, e1]; exact hcyc.2.2.1
  · rw [e2, e1]; exact hcyc.2.2.2.1
  · rw [e3, e1, e2]; exact hcyc.2.2.2.2.1
  · rw [e3]; exact hcyc.2.2.2.2.2
